import Mathlib

/-!
A shallow embedding of the genrejinn reading-annotation engine: the mark and
note collections held in the `App` component, the `findParentMark` hierarchy
resolver, the mutating operations (`addMark`, `addHighlight`,
`applyFormatting`, `deleteNote`, `deleteMarkWithReassignment`,
`undoLastHighlight`, `saveMarkName`, `saveMarkText`, `saveNoteText`), the
marks sort comparator, and the express endpoints of `server.js`.  JS numbers
returned by `percentageFromCfi` are modelled as rationals, a `null` position
as `none`.
-/

set_option allowUnsafeReducibility true
attribute [local semireducible] Rat.mul Rat.inv Rat.sub Rat.add Rat.div Rat.neg

namespace GenreJinn

/-- A bookmark record, with the fields built by `addMark`. -/
structure Mark where
  id : String
  cfiRange : String
  text : String
  name : String
  markText : String
  timestamp : Nat
  deriving Repr, DecidableEq

/-- A highlight/underline record, with the fields built by `addHighlight`
and `applyFormatting` (`type` is "highlight" or "underline",
`markId` is the parent mark id or `null`). -/
structure Note where
  id : String
  text : String
  cfiRange : String
  color : String
  type : String
  markId : Option String
  noteText : String
  timestamp : Nat
  deriving Repr, DecidableEq

/-- The position resolver `rendition.book.locations.percentageFromCfi`:
`none` models the JS `null` for an unresolvable CFI. -/
abbrev Resolver := String → Option ℚ

/-- The two JSON files in the server data directory; `none` models a file
that does not exist yet. -/
structure ServerState where
  marksFile : Option (List Mark)
  notesFile : Option (List Note)
  deriving Repr, DecidableEq

/-- POST /api/save-mark: reads the existing marks (empty when the file is
missing), appends the single posted record, writes the result back. -/
def saveMarkEndpoint (markData : Mark) (s : ServerState) : ServerState :=
  { s with marksFile := some (s.marksFile.getD [] ++ [markData]) }

/-- POST /api/save-note: reads the existing notes (empty when the file is
missing), appends the single posted record, writes the result back. -/
def saveNoteEndpoint (noteData : Note) (s : ServerState) : ServerState :=
  { s with notesFile := some (s.notesFile.getD [] ++ [noteData]) }

/-- POST /api/update-marks: overwrites marks.json with exactly the posted
array. -/
def updateMarksEndpoint (marks : List Mark) (s : ServerState) : ServerState :=
  { s with marksFile := some marks }

/-- POST /api/update-notes: overwrites notes.json with exactly the posted
array. -/
def updateNotesEndpoint (notes : List Note) (s : ServerState) : ServerState :=
  { s with notesFile := some notes }

/-- GET /api/load-marks: the parsed file, or the empty array when the file
is missing. -/
def loadMarksEndpoint (s : ServerState) : List Mark :=
  s.marksFile.getD []

/-- GET /api/load-notes: the parsed file, or the empty array when the file
is missing. -/
def loadNotesEndpoint (s : ServerState) : List Note :=
  s.notesFile.getD []

/-- The component state the annotation logic operates on (the `marks` and
`notes` state variables) together with the server files its fetch calls
mutate. -/
structure AppState where
  marks : List Mark
  notes : List Note
  server : ServerState
  deriving Repr, DecidableEq

/-- A text selection as captured by the `selected` event handler. -/
structure Selection where
  cfiRange : String
  text : String
  deriving Repr, DecidableEq

/-- One iteration of the `for (const mark of marks)` loop in
`findParentMark`.  The accumulator is the pair
`(parentMark, closestDistance)`; a `none` distance stands for the initial
`Infinity`, against which any distance compares smaller. -/
def fpStep (resolve : Resolver) (notePosition : ℚ)
    (acc : Option Mark × Option ℚ) (mark : Mark) : Option Mark × Option ℚ :=
  match resolve mark.cfiRange with
  | none => acc
  | some markPosition =>
    if markPosition ≤ notePosition then
      let distance := notePosition - markPosition
      match acc.2 with
      | none => (some mark, some distance)
      | some closestDistance =>
          if distance < closestDistance then (some mark, some distance) else acc
    else acc

/-- `findParentMark(noteCfiRange)`: the nearest mark at or before the note's
resolved position, scanning `marks` in stored order.  `locationsReady`
models the guard `rendition && rendition.book && rendition.book.locations.total`;
an unresolved note position yields `null`. -/
def findParentMark (resolve : Resolver) (locationsReady : Bool)
    (marks : List Mark) (noteCfiRange : String) : Option Mark :=
  if locationsReady then
    match resolve noteCfiRange with
    | none => none
    | some notePosition =>
        (marks.foldl (fpStep resolve notePosition) (none, none)).1
  else none

/-- `addMark`: when a selection exists and the rendition is available,
appends a fresh mark (default name "Episode N" from the current mark count)
and POSTs the single record to /api/save-mark. -/
def addMark (currentSelection : Option Selection) (rendition : Bool)
    (newId : String) (now : Nat) (s : AppState) : AppState :=
  match currentSelection, rendition with
  | some sel, true =>
      let markData : Mark :=
        { id := newId, cfiRange := sel.cfiRange, text := sel.text,
          name := "Episode " ++ toString (s.marks.length + 1),
          markText := "", timestamp := now }
      { s with marks := s.marks ++ [markData],
               server := saveMarkEndpoint markData s.server }
  | _, _ => s

/-- `addHighlight`: looks up the parent via `findParentMark`; when none is
found the creation is rejected (alert and early return, no state change),
otherwise the note is appended and POSTed to /api/save-note. -/
def addHighlight (resolve : Resolver) (locationsReady : Bool)
    (currentSelection : Option Selection) (rendition : Bool)
    (currentColor : String) (newId : String) (now : Nat)
    (s : AppState) : AppState :=
  match currentSelection, rendition with
  | some sel, true =>
    match findParentMark resolve locationsReady s.marks sel.cfiRange with
    | none => s
    | some parentMark =>
        let noteData : Note :=
          { id := newId, text := sel.text, cfiRange := sel.cfiRange,
            color := currentColor, type := "highlight",
            markId := some parentMark.id, noteText := "", timestamp := now }
        { s with notes := s.notes ++ [noteData],
                 server := saveNoteEndpoint noteData s.server }
  | _, _ => s

/-- `applyFormatting(formatType)`: identical to `addHighlight` except that
the created note's `type` is the given format type ("underline"). -/
def applyFormatting (resolve : Resolver) (locationsReady : Bool)
    (formatType : String)
    (currentSelection : Option Selection) (rendition : Bool)
    (currentColor : String) (newId : String) (now : Nat)
    (s : AppState) : AppState :=
  match currentSelection, rendition with
  | some sel, true =>
    match findParentMark resolve locationsReady s.marks sel.cfiRange with
    | none => s
    | some parentMark =>
        let noteData : Note :=
          { id := newId, text := sel.text, cfiRange := sel.cfiRange,
            color := currentColor, type := formatType,
            markId := some parentMark.id, noteText := "", timestamp := now }
        { s with notes := s.notes ++ [noteData],
                 server := saveNoteEndpoint noteData s.server }
  | _, _ => s

/-- `deleteNote`: silently returns when the id is absent; otherwise filters
the note out and POSTs the whole remaining array to /api/update-notes. -/
def deleteNote (noteId : String) (s : AppState) : AppState :=
  match s.notes.find? (fun note => note.id == noteId) with
  | none => s
  | some _ =>
      let updatedNotes := s.notes.filter (fun note => note.id != noteId)
      { s with notes := updatedNotes,
               server := updateNotesEndpoint updatedNotes s.server }

/-- `deleteMarkWithReassignment`: remaps every note whose `markId` is the
deleted id through `findParentMark` — which reads the `marks` closure
variable, i.e. the pre-deletion mark list — then filters the mark out and
POSTs the new marks array and the new notes array. -/
def deleteMarkWithReassignment (resolve : Resolver) (locationsReady : Bool)
    (markId : String) (s : AppState) : AppState :=
  let updatedNotes := s.notes.map (fun note =>
    if note.markId == some markId then
      { note with
        markId := (findParentMark resolve locationsReady s.marks note.cfiRange).map Mark.id }
    else note)
  let updatedMarks := s.marks.filter (fun mark => mark.id != markId)
  { marks := updatedMarks, notes := updatedNotes,
    server := updateNotesEndpoint updatedNotes
      (updateMarksEndpoint updatedMarks s.server) }

/-- `undoLastHighlight`: when the note list is non-empty, drops its last
element (`notes.slice(0, -1)`) and POSTs the remaining array; otherwise
does nothing. -/
def undoLastHighlight (s : AppState) : AppState :=
  if 0 < s.notes.length then
    let updatedNotes := s.notes.dropLast
    { s with notes := updatedNotes,
             server := updateNotesEndpoint updatedNotes s.server }
  else s

/-- `saveMarkName`: rewrites the matching mark's `name` and POSTs the whole
marks array to /api/update-marks. -/
def saveMarkName (markId newName : String) (s : AppState) : AppState :=
  let updatedMarks := s.marks.map (fun mark =>
    if mark.id == markId then { mark with name := newName } else mark)
  { s with marks := updatedMarks,
           server := updateMarksEndpoint updatedMarks s.server }

/-- `saveMarkText`: rewrites the matching mark's `markText` and POSTs the
whole marks array to /api/update-marks. -/
def saveMarkText (markId newMarkText : String) (s : AppState) : AppState :=
  let updatedMarks := s.marks.map (fun mark =>
    if mark.id == markId then { mark with markText := newMarkText } else mark)
  { s with marks := updatedMarks,
           server := updateMarksEndpoint updatedMarks s.server }

/-- `saveNoteText`: rewrites the matching note's `noteText` and POSTs the
whole notes array to /api/update-notes. -/
def saveNoteText (noteId newNoteText : String) (s : AppState) : AppState :=
  let updatedNotes := s.notes.map (fun note =>
    if note.id == noteId then { note with noteText := newNoteText } else note)
  { s with notes := updatedNotes,
           server := updateNotesEndpoint updatedNotes s.server }

/-- The coerced key `percentageFromCfi(cfiRange) || 0` computed inside the
marks sort comparator: an unresolved position is coerced to `0`. -/
def sortPosition (resolve : Resolver) (m : Mark) : ℚ :=
  (resolve m.cfiRange).getD 0

/-- The comparator passed to `marks.sort`: coerced-position difference when
the location index is available, creation-timestamp difference otherwise. -/
def markCompare (resolve : Resolver) (locationsReady : Bool) (a b : Mark) : ℚ :=
  if locationsReady then sortPosition resolve a - sortPosition resolve b
  else (a.timestamp : ℚ) - (b.timestamp : ℚ)

/-- The position-sorted view of the marks list: a stable sort under the
comparator, an element `a` staying before `b` whenever
`markCompare a b ≤ 0`. -/
def sortedMarks (resolve : Resolver) (locationsReady : Bool)
    (marks : List Mark) : List Mark :=
  List.insertionSort (fun a b => markCompare resolve locationsReady a b ≤ 0) marks

/-- The no-dangling-parents invariant: every note's `markId` is null or
names a mark currently present in the marks list. -/
def noDangling (s : AppState) : Bool :=
  s.notes.all (fun note =>
    match note.markId with
    | none => true
    | some mid => s.marks.any (fun mark => mark.id == mid))

/-- The placement the ordering claim asks of the sorted view: it lists the
marks with a resolved position first and every unresolved mark after them. -/
def unresolvedPlacedLast (resolve : Resolver) (locationsReady : Bool)
    (marks : List Mark) : Prop :=
  sortedMarks resolve locationsReady marks =
    (sortedMarks resolve locationsReady marks).filter
      (fun m => (resolve m.cfiRange).isSome) ++
    (sortedMarks resolve locationsReady marks).filter
      (fun m => !(resolve m.cfiRange).isSome)

/-- Resolver for the concrete scenario of the spec: mark anchors at
positions 0.1 and 0.5, a note anchor at 0.6, everything else unresolved. -/
def exResolve : Resolver := fun cfi =>
  if cfi = "cfi-m1" then some (1/10)
  else if cfi = "cfi-m2" then some (1/2)
  else if cfi = "cfi-n" then some (3/5)
  else none

/-- Mark M1 at position 0.1. -/
def exM1 : Mark :=
  { id := "mark-1", cfiRange := "cfi-m1", text := "mark one",
    name := "Episode 1", markText := "", timestamp := 1 }

/-- Mark M2 at position 0.5. -/
def exM2 : Mark :=
  { id := "mark-2", cfiRange := "cfi-m2", text := "mark two",
    name := "Episode 2", markText := "", timestamp := 2 }

/-- Note N at position 0.6, parented to M2. -/
def exN : Note :=
  { id := "note-1", text := "note text", cfiRange := "cfi-n",
    color := "#fbdda7", type := "highlight", markId := some "mark-2",
    noteText := "", timestamp := 3 }

/-- The spec scenario: marks M1 and M2, note N parented to M2, both
collections persisted. -/
def exState : AppState :=
  { marks := [exM1, exM2], notes := [exN],
    server := { marksFile := some [exM1, exM2], notesFile := some [exN] } }

/-- The orphaning scenario: only mark M2, note N parented to it. -/
def exStateSingle : AppState :=
  { marks := [exM2], notes := [exN],
    server := { marksFile := some [exM2], notesFile := some [exN] } }

/-- Resolver for the ordering scenario: one anchor resolved at 0.5,
everything else unresolved. -/
def c5Resolve : Resolver := fun cfi =>
  if cfi = "cfi-m1" then some (1/2) else none

/-- A mark whose anchor does not resolve, created after the resolved one. -/
def c5MarkU : Mark :=
  { id := "mark-u", cfiRange := "cfi-u", text := "unresolved mark",
    name := "Episode 2", markText := "", timestamp := 2 }

/-- A second mark whose anchor does not resolve, created still later. -/
def c5MarkU2 : Mark :=
  { id := "mark-u2", cfiRange := "cfi-u2", text := "second unresolved mark",
    name := "Episode 3", markText := "", timestamp := 3 }

/-- Resolver for the creation-precondition scenario: the note anchor
resolves at 0.05, below both mark positions. -/
def c3Resolve : Resolver := fun cfi =>
  if cfi = "cfi-m1" then some (1/10)
  else if cfi = "cfi-m2" then some (1/2)
  else if cfi = "cfi-lo" then some (1/20)
  else none

/-- The note record (`noteData`) that `addHighlight` and `applyFormatting`
build from a selection, a color, a type, a fresh id, a parent and a
timestamp. -/
def mkNoteData (sel : Selection) (currentColor noteType newId : String)
    (parentId : Option String) (now : Nat) : Note :=
  { id := newId, text := sel.text, cfiRange := sel.cfiRange,
    color := currentColor, type := noteType, markId := parentId,
    noteText := "", timestamp := now }

/-- Marks at 0.1 and 0.5 with no notes yet, for attempting a creation at
position 0.05. -/
def c3State : AppState :=
  { marks := [exM1, exM2], notes := [],
    server := { marksFile := some [exM1, exM2], notesFile := some [] } }

/-- The invariant of the scan in `findParentMark`: after the marks in
`seen` have been processed, an empty accumulator means no scanned mark has
a resolved position at or before the note position, and otherwise the
accumulator holds the first scanned mark attaining the greatest such
position, paired with its distance to the note. -/
def fpInv (resolve : Resolver) (notePosition : ℚ) (seen : List Mark)
    (acc : Option Mark × Option ℚ) : Prop :=
  (acc = (none, none) ∧
    ∀ m ∈ seen, ∀ q, resolve m.cfiRange = some q → ¬ q ≤ notePosition) ∨
  (∃ m q l₁ l₂, acc = (some m, some (notePosition - q)) ∧
    resolve m.cfiRange = some q ∧ q ≤ notePosition ∧
    seen = l₁ ++ m :: l₂ ∧
    (∀ m2 ∈ l₁, ∀ q2, resolve m2.cfiRange = some q2 →
      q2 ≤ notePosition → q2 < q) ∧
    (∀ m2 ∈ seen, ∀ q2, resolve m2.cfiRange = some q2 →
      q2 ≤ notePosition → q2 ≤ q))

end GenreJinn

namespace GenreJinn

/-- Processing one more mark preserves the scan invariant of
`findParentMark`. -/
theorem fpStep_inv (resolve : Resolver) (p : ℚ) (seen : List Mark)
    (acc : Option Mark × Option ℚ) (mark : Mark)
    (h : fpInv resolve p seen acc) :
    fpInv resolve p (seen ++ [mark]) (fpStep resolve p acc mark) := by
  rcases h with ⟨hacc, hnone⟩ | ⟨m, q, l₁, l₂, hacc, hres, hle, hseen, hfirst, hmax⟩
  · subst hacc
    cases hr : resolve mark.cfiRange with
    | none =>
        have hstep : fpStep resolve p (none, none) mark = (none, none) := by
          simp [fpStep, hr]
        rw [hstep]
        left
        refine ⟨rfl, ?_⟩
        intro m hm q hq
        rcases List.mem_append.mp hm with hm | hm
        · exact hnone m hm q hq
        · rw [List.mem_singleton.mp hm, hr] at hq
          exact absurd hq (by simp)
    | some mp =>
        by_cases hmp : mp ≤ p
        · have hstep : fpStep resolve p (none, none) mark
              = (some mark, some (p - mp)) := by
            simp [fpStep, hr, hmp]
          rw [hstep]
          right
          refine ⟨mark, mp, seen, [], rfl, hr, hmp, by simp, ?_, ?_⟩
          · intro m2 hm2 q2 hq2 hle2
            exact absurd hle2 (hnone m2 hm2 q2 hq2)
          · intro m2 hm2 q2 hq2 hle2
            rcases List.mem_append.mp hm2 with hm2 | hm2
            · exact absurd hle2 (hnone m2 hm2 q2 hq2)
            · rw [List.mem_singleton.mp hm2, hr] at hq2
              exact le_of_eq (Option.some.inj hq2).symm
        · have hstep : fpStep resolve p (none, none) mark = (none, none) := by
            simp [fpStep, hr, hmp]
          rw [hstep]
          left
          refine ⟨rfl, ?_⟩
          intro m hm q hq
          rcases List.mem_append.mp hm with hm | hm
          · exact hnone m hm q hq
          · rw [List.mem_singleton.mp hm, hr] at hq
            rw [Option.some.inj hq] at hmp
            exact hmp
  · subst hacc
    cases hr : resolve mark.cfiRange with
    | none =>
        have hstep : fpStep resolve p (some m, some (p - q)) mark
            = (some m, some (p - q)) := by
          simp [fpStep, hr]
        rw [hstep]
        right
        refine ⟨m, q, l₁, l₂ ++ [mark], rfl, hres, hle, ?_, hfirst, ?_⟩
        · rw [hseen]; simp
        · intro m2 hm2 q2 hq2 hle2
          rcases List.mem_append.mp hm2 with hm2 | hm2
          · exact hmax m2 hm2 q2 hq2 hle2
          · rw [List.mem_singleton.mp hm2, hr] at hq2
            exact absurd hq2 (by simp)
    | some mp =>
        by_cases hmp : mp ≤ p
        · by_cases hlt : p - mp < p - q
          · have hstep : fpStep resolve p (some m, some (p - q)) mark
                = (some mark, some (p - mp)) := by
              simp [fpStep, hr, hmp, hlt]
            rw [hstep]
            have hqmp : q < mp := by linarith
            right
            refine ⟨mark, mp, seen, [], rfl, hr, hmp, by simp, ?_, ?_⟩
            · intro m2 hm2 q2 hq2 hle2
              exact lt_of_le_of_lt (hmax m2 hm2 q2 hq2 hle2) hqmp
            · intro m2 hm2 q2 hq2 hle2
              rcases List.mem_append.mp hm2 with hm2 | hm2
              · exact le_of_lt (lt_of_le_of_lt (hmax m2 hm2 q2 hq2 hle2) hqmp)
              · rw [List.mem_singleton.mp hm2, hr] at hq2
                exact le_of_eq (Option.some.inj hq2).symm
          · have hstep : fpStep resolve p (some m, some (p - q)) mark
                = (some m, some (p - q)) := by
              simp [fpStep, hr, hmp, hlt]
            rw [hstep]
            have hmpq : mp ≤ q := by linarith
            right
            refine ⟨m, q, l₁, l₂ ++ [mark], rfl, hres, hle, ?_, hfirst, ?_⟩
            · rw [hseen]; simp
            · intro m2 hm2 q2 hq2 hle2
              rcases List.mem_append.mp hm2 with hm2 | hm2
              · exact hmax m2 hm2 q2 hq2 hle2
              · rw [List.mem_singleton.mp hm2, hr] at hq2
                rw [← Option.some.inj hq2]
                exact hmpq
        · have hstep : fpStep resolve p (some m, some (p - q)) mark
              = (some m, some (p - q)) := by
            simp [fpStep, hr, hmp]
          rw [hstep]
          right
          refine ⟨m, q, l₁, l₂ ++ [mark], rfl, hres, hle, ?_, hfirst, ?_⟩
          · rw [hseen]; simp
          · intro m2 hm2 q2 hq2 hle2
            rcases List.mem_append.mp hm2 with hm2 | hm2
            · exact hmax m2 hm2 q2 hq2 hle2
            · rw [List.mem_singleton.mp hm2, hr] at hq2
              rw [← Option.some.inj hq2] at hle2
              exact absurd hle2 hmp

/-- The scan invariant carries through the whole fold of
`findParentMark`. -/
theorem fpFold_inv (resolve : Resolver) (p : ℚ) :
    ∀ (rest seen : List Mark) (acc : Option Mark × Option ℚ),
      fpInv resolve p seen acc →
      fpInv resolve p (seen ++ rest) (rest.foldl (fpStep resolve p) acc)
  | [], seen, acc, h => by simpa using h
  | mark :: rest, seen, acc, h => by
      have h3 := fpFold_inv resolve p rest (seen ++ [mark]) _
        (fpStep_inv resolve p seen acc mark h)
      simpa [List.append_assoc] using h3

/-- A successful `findParentMark` call returns a mark at or before the
note's resolved position, maximal among such marks, and the first mark in
stored order attaining that maximal position. -/
theorem findParentMark_spec (resolve : Resolver) (lr : Bool)
    (marks : List Mark) (noteCfi : String) (m : Mark)
    (h : findParentMark resolve lr marks noteCfi = some m) :
    ∃ p, resolve noteCfi = some p ∧ ∃ q l₁ l₂,
      resolve m.cfiRange = some q ∧ q ≤ p ∧ marks = l₁ ++ m :: l₂ ∧
      (∀ m2 ∈ l₁, ∀ q2, resolve m2.cfiRange = some q2 → q2 ≤ p → q2 < q) ∧
      (∀ m2 ∈ marks, ∀ q2, resolve m2.cfiRange = some q2 → q2 ≤ p → q2 ≤ q) := by
  unfold findParentMark at h
  cases lr with
  | false => simp at h
  | true =>
    cases hres : resolve noteCfi with
    | none => rw [hres] at h; simp at h
    | some p =>
      rw [hres] at h
      simp only [if_true] at h
      have hinv := fpFold_inv resolve p marks [] (none, none)
        (Or.inl ⟨rfl, by simp⟩)
      rcases hinv with ⟨heq, _⟩ | ⟨m', q, l₁, l₂, hacc, hq, hle, hseen, hfirst, hmax⟩
      · rw [heq] at h; simp at h
      · rw [hacc] at h
        simp only [Option.some.injEq] at h
        subst h
        simp only [List.nil_append] at hseen hmax
        exact ⟨p, rfl, q, l₁, l₂, hq, hle, hseen, hfirst, hmax⟩

/-- When no mark qualifies the fold of `findParentMark` never leaves its
initial state. -/
theorem fpFold_none (resolve : Resolver) (p : ℚ) :
    ∀ (marks : List Mark),
      (∀ m ∈ marks, ∀ q, resolve m.cfiRange = some q → ¬ q ≤ p) →
      marks.foldl (fpStep resolve p) (none, none) = (none, none)
  | [], _ => rfl
  | mark :: rest, h => by
      have hstep : fpStep resolve p (none, none) mark = (none, none) := by
        cases hr : resolve mark.cfiRange with
        | none => simp [fpStep, hr]
        | some mp =>
            have := h mark (by simp) mp hr
            simp [fpStep, hr, this]
      rw [List.foldl_cons, hstep]
      exact fpFold_none resolve p rest (fun m hm => h m (by simp [hm]))

/-- `findParentMark` yields `null` when the note anchor is unresolved or
no mark has a resolved position at or before the note's. -/
theorem findParentMark_none (resolve : Resolver) (lr : Bool)
    (marks : List Mark) (noteCfi : String)
    (h : resolve noteCfi = none ∨
      ∀ p, resolve noteCfi = some p →
        ∀ m ∈ marks, ∀ q, resolve m.cfiRange = some q → ¬ q ≤ p) :
    findParentMark resolve lr marks noteCfi = none := by
  unfold findParentMark
  cases lr with
  | false => simp
  | true =>
    cases hres : resolve noteCfi with
    | none => simp
    | some p =>
      rcases h with h | h
      · rw [h] at hres; exact absurd hres (by simp)
      · simp only [if_true]
        rw [fpFold_none resolve p marks (h p hres)]

end GenreJinn

namespace GenreJinn

/-- C1: on `deleteMarkWithReassignment` the notes of the deleted mark are
re-parented by `findParentMark` run against the pre-deletion mark list, so
in the spec scenario (marks at 0.1 and 0.5, note at 0.6 parented to the
0.5 mark) deleting the 0.5 mark leaves the note pointing at the deleted
mark itself rather than at the 0.1 mark, and in the single-mark scenario
the note keeps the deleted id rather than becoming null. -/
theorem deleteMark_reassignment_dangling :
    (deleteMarkWithReassignment exResolve true "mark-2" exState).notes.map Note.markId
      = [some "mark-2"] ∧
    (deleteMarkWithReassignment exResolve true "mark-2" exState).marks = [exM1] ∧
    (deleteMarkWithReassignment exResolve true "mark-2" exStateSingle).notes.map Note.markId
      = [some "mark-2"] ∧
    (deleteMarkWithReassignment exResolve true "mark-2" exStateSingle).marks = [] := by
  exact ⟨by decide, by decide, by decide, by decide⟩

/-- C2: the no-dangling-parents invariant holds in the spec scenario before
the deletion and is broken by `deleteMarkWithReassignment`: after deleting
the 0.5 mark its note still names the deleted mark id, which is no longer
in the mark collection. -/
theorem deleteMark_breaks_noDangling :
    noDangling exState = true ∧
    noDangling (deleteMarkWithReassignment exResolve true "mark-2" exState) = false := by
  exact ⟨by decide, by decide⟩

/-- C3: when the note anchor's position is unresolved, or no mark has a
resolved position at or before it, `addHighlight` and `applyFormatting`
reject the creation and change nothing: the note collection, the mark
collection and the persisted server state are all left exactly as they
were. -/
theorem noteCreation_rejected_no_preceding_mark
    (resolve : Resolver) (locationsReady rendition : Bool) (sel : Selection)
    (currentColor newId : String) (now : Nat) (s : AppState)
    (h : resolve sel.cfiRange = none ∨
      ∀ p, resolve sel.cfiRange = some p →
        ∀ m ∈ s.marks, ∀ q, resolve m.cfiRange = some q → ¬ q ≤ p) :
    addHighlight resolve locationsReady (some sel) rendition
      currentColor newId now s = s ∧
    applyFormatting resolve locationsReady "underline" (some sel) rendition
      currentColor newId now s = s := by
  have hfp := findParentMark_none resolve locationsReady s.marks sel.cfiRange h
  constructor
  · cases rendition with
    | false => rfl
    | true => simp [addHighlight, hfp]
  · cases rendition with
    | false => rfl
    | true => simp [applyFormatting, hfp]

/-- C3 witness: attempting a highlight and an underline at position 0.05
with marks only at 0.1 and 0.5 leaves the state untouched. -/
theorem noteCreation_rejected_no_preceding_mark_witness :
    addHighlight c3Resolve true (some ⟨"cfi-lo", "early words"⟩) true
      "#fbdda7" "note-2" 5 c3State = c3State ∧
    applyFormatting c3Resolve true "underline" (some ⟨"cfi-lo", "early words"⟩) true
      "#fbdda7" "note-2" 5 c3State = c3State :=
  noteCreation_rejected_no_preceding_mark c3Resolve true true
    ⟨"cfi-lo", "early words"⟩ "#fbdda7" "note-2" 5 c3State (by
      right
      intro p hp m hm q hq hqp
      have hkey : c3Resolve "cfi-lo" = some ((1:ℚ)/20) := by decide
      rw [hkey] at hp
      obtain rfl := Option.some.inj hp
      have hm' : m = exM1 ∨ m = exM2 := by simpa [c3State] using hm
      rcases hm' with rfl | rfl
      · have h1 : c3Resolve exM1.cfiRange = some ((1:ℚ)/10) := by decide
        rw [h1] at hq
        rw [← Option.some.inj hq] at hqp
        exact absurd hqp (by decide)
      · have h2 : c3Resolve exM2.cfiRange = some ((1:ℚ)/2) := by decide
        rw [h2] at hq
        rw [← Option.some.inj hq] at hqp
        exact absurd hqp (by decide))

/-- C4: a successfully created note (highlight or underline) is parented to
the mark returned by `findParentMark`, which lies at or before the note's
resolved position `p`, has the greatest resolved position among the present
marks at or before `p`, and is the first mark in stored order attaining
that position when several tie. -/
theorem created_note_parent_nearest_preceding
    (resolve : Resolver) (locationsReady : Bool) (sel : Selection)
    (currentColor newId : String) (now : Nat) (s : AppState) (p : ℚ) (m : Mark)
    (hp : resolve sel.cfiRange = some p)
    (hm : findParentMark resolve locationsReady s.marks sel.cfiRange = some m) :
    (addHighlight resolve locationsReady (some sel) true
        currentColor newId now s).notes
      = s.notes ++ [mkNoteData sel currentColor "highlight" newId (some m.id) now] ∧
    (applyFormatting resolve locationsReady "underline" (some sel) true
        currentColor newId now s).notes
      = s.notes ++ [mkNoteData sel currentColor "underline" newId (some m.id) now] ∧
    m ∈ s.marks ∧
    ∃ q l₁ l₂, resolve m.cfiRange = some q ∧ q ≤ p ∧ s.marks = l₁ ++ m :: l₂ ∧
      (∀ m2 ∈ l₁, ∀ q2, resolve m2.cfiRange = some q2 → q2 ≤ p → q2 < q) ∧
      (∀ m2 ∈ s.marks, ∀ q2, resolve m2.cfiRange = some q2 → q2 ≤ p → q2 ≤ q) := by
  obtain ⟨p', hp', q, l₁, l₂, hq, hle, hsplit, hfirst, hmax⟩ :=
    findParentMark_spec resolve locationsReady s.marks sel.cfiRange m hm
  rw [hp] at hp'
  obtain rfl := Option.some.inj hp'
  refine ⟨?_, ?_, ?_, q, l₁, l₂, hq, hle, hsplit, hfirst, hmax⟩
  · simp [addHighlight, hm, mkNoteData]
  · simp [applyFormatting, hm, mkNoteData]
  · rw [hsplit]
    exact List.mem_append_right _ (List.mem_cons_self _ _)

/-- C4 witness: a highlight created at position 0.6 against marks at 0.1
and 0.5 is parented to the mark at 0.5. -/
theorem created_note_parent_nearest_preceding_witness :
    (addHighlight exResolve true (some ⟨"cfi-n", "note text"⟩) true
        "#fbdda7" "note-9" 9 exState).notes
      = exState.notes
        ++ [mkNoteData ⟨"cfi-n", "note text"⟩ "#fbdda7" "highlight" "note-9"
              (some exM2.id) 9] :=
  (created_note_parent_nearest_preceding exResolve true ⟨"cfi-n", "note text"⟩
    "#fbdda7" "note-9" 9 exState (3/5) exM2 (by decide) (by decide)).1

end GenreJinn

namespace GenreJinn

/-- C5 counterexample: with the location index available, a mark whose
anchor is unresolved is coerced to position 0 by the sort comparator and
placed before a resolved mark at position 0.5, so the sorted view does not
place unresolved marks after all resolved marks. -/
theorem sort_unresolved_not_placed_last :
    c5Resolve c5MarkU.cfiRange = none ∧
    (c5Resolve exM1.cfiRange).isSome = true ∧
    sortedMarks c5Resolve true [exM1, c5MarkU] = [c5MarkU, exM1] ∧
    ¬ unresolvedPlacedLast c5Resolve true [exM1, c5MarkU] := by
  refine ⟨by decide, by decide, by decide, ?_⟩
  unfold unresolvedPlacedLast
  decide

/-- C5 amended: the comparator coerces an unresolved position to exactly 0
(`percentageFromCfi(...) || 0`); when the location index is available the
sorted view is ordered ascending by that coerced key — so unresolved marks
sort as position-0 marks, not after the resolved ones — and the sort is
stable, so the unresolved marks (all sharing key 0) keep their stored
relative order: the list of unresolved marks in stored order is a sublist
of the sorted view; when the index is unavailable the view is ordered
ascending by creation timestamp. -/
theorem marks_sort_coerces_unresolved_to_zero
    (resolve : Resolver) (marks : List Mark) (m : Mark)
    (hm : resolve m.cfiRange = none) :
    sortPosition resolve m = 0 ∧
    List.Sorted (fun a b => sortPosition resolve a ≤ sortPosition resolve b)
      (sortedMarks resolve true marks) ∧
    List.Sublist (marks.filter (fun mk => (resolve mk.cfiRange).isNone))
      (sortedMarks resolve true marks) ∧
    List.Sorted (fun a b => a.timestamp ≤ b.timestamp)
      (sortedMarks resolve false marks) := by
  have hiff : ∀ a b : Mark, (markCompare resolve true a b ≤ 0) ↔
      sortPosition resolve a ≤ sortPosition resolve b := by
    intro a b
    simp [markCompare, sub_nonpos]
  have hiff2 : ∀ a b : Mark, (markCompare resolve false a b ≤ 0) ↔
      a.timestamp ≤ b.timestamp := by
    intro a b
    simp [markCompare, sub_nonpos]
  refine ⟨by simp [sortPosition, hm], ?_, ?_, ?_⟩
  · letI : IsTotal Mark (fun a b => markCompare resolve true a b ≤ 0) :=
      ⟨fun a b => by rw [hiff, hiff]; exact le_total _ _⟩
    letI : IsTrans Mark (fun a b => markCompare resolve true a b ≤ 0) :=
      ⟨fun a b c hab hbc => by
        rw [hiff] at hab hbc ⊢
        exact le_trans hab hbc⟩
    have hs := List.sorted_insertionSort
      (fun a b => markCompare resolve true a b ≤ 0) marks
    exact hs.imp (fun hab => (hiff _ _).mp hab)
  · have hpw : (marks.filter (fun mk => (resolve mk.cfiRange).isNone)).Pairwise
        (fun a b => markCompare resolve true a b ≤ 0) := by
      apply List.pairwise_of_forall_mem_list
      intro a ha b hb
      have ha' : resolve a.cfiRange = none :=
        Option.isNone_iff_eq_none.mp (List.mem_filter.mp ha).2
      have hb' : resolve b.cfiRange = none :=
        Option.isNone_iff_eq_none.mp (List.mem_filter.mp hb).2
      simp [markCompare, sortPosition, ha', hb']
    exact List.sublist_insertionSort hpw (List.filter_sublist _)
  · letI : IsTotal Mark (fun a b => markCompare resolve false a b ≤ 0) :=
      ⟨fun a b => by rw [hiff2, hiff2]; exact le_total _ _⟩
    letI : IsTrans Mark (fun a b => markCompare resolve false a b ≤ 0) :=
      ⟨fun a b c hab hbc => by
        rw [hiff2] at hab hbc ⊢
        exact le_trans hab hbc⟩
    have hs := List.sorted_insertionSort
      (fun a b => markCompare resolve false a b ≤ 0) marks
    exact hs.imp (fun hab => (hiff2 _ _).mp hab)

/-- C5 amended witness: the unresolved mark's coerced sort key is 0, and
with two unresolved marks in the input the sorted view keeps them in their
stored relative order. -/
theorem marks_sort_coerces_unresolved_to_zero_witness :
    sortPosition c5Resolve c5MarkU = 0 ∧
    List.Sublist
      ([exM1, c5MarkU, c5MarkU2].filter (fun mk => (c5Resolve mk.cfiRange).isNone))
      (sortedMarks c5Resolve true [exM1, c5MarkU, c5MarkU2]) :=
  ⟨(marks_sort_coerces_unresolved_to_zero c5Resolve [exM1, c5MarkU] c5MarkU
      (by decide)).1,
   (marks_sort_coerces_unresolved_to_zero c5Resolve [exM1, c5MarkU, c5MarkU2]
      c5MarkU (by decide)).2.2.1⟩

/-- C6 counterexample: deleting the 0.5 mark of the spec scenario twice is
not idempotent — the second call reassigns the note that still references
the deleted id, so the state after the second call differs from the state
after the first. -/
theorem deleteMark_twice_changes_notes :
    deleteMarkWithReassignment exResolve true "mark-2"
        (deleteMarkWithReassignment exResolve true "mark-2" exState)
      ≠ deleteMarkWithReassignment exResolve true "mark-2" exState := by
  decide

/-- C6 amended: `deleteMarkWithReassignment` performs no existence check
and reports no failure; a second deletion of the same id leaves the mark
collection exactly as after the first call (the filter is idempotent),
although the note collection can still change. -/
theorem deleteMark_twice_marks_unchanged (resolve : Resolver) (lr : Bool)
    (markId : String) (s : AppState) :
    (deleteMarkWithReassignment resolve lr markId
        (deleteMarkWithReassignment resolve lr markId s)).marks
      = (deleteMarkWithReassignment resolve lr markId s).marks := by
  simp [deleteMarkWithReassignment, List.filter_filter]

/-- C7 counterexample: creating a mark sends only the single new record to
/api/save-mark, and that endpoint appends it to the previously stored
array — the stored result is an incremental append, not a full replace by
the payload. -/
theorem saveMark_is_incremental_append :
    (addMark (some ⟨"cfi-m2", "mark two"⟩) true "mark-2" 2
        { marks := [exM1], notes := [],
          server := { marksFile := some [exM1], notesFile := some [] } }).server
      = saveMarkEndpoint exM2
          { marksFile := some [exM1], notesFile := some [] } ∧
    (saveMarkEndpoint exM2
        { marksFile := some [exM1], notesFile := some [] }).marksFile
      = some ([exM1] ++ [exM2]) ∧
    some ([exM1] ++ [exM2]) ≠ some [exM2] := by
  exact ⟨by decide, by decide, by decide⟩

/-- C7 amended: the update endpoints replace the stored file with exactly
the posted array, and every update-style operation — mark deletion, the
label and body editors, note deletion, undo — posts its entire resulting
collection; but the save endpoints used by mark and note creation append
the single posted record to the stored collection. -/
theorem persistence_save_semantics (X : List Mark) (Y : List Note)
    (m : Mark) (n : Note) (srv : ServerState)
    (resolve : Resolver) (lr : Bool)
    (markId newName noteId newText : String) (s : AppState) :
    (updateMarksEndpoint X srv).marksFile = some X ∧
    (updateNotesEndpoint Y srv).notesFile = some Y ∧
    (saveMarkEndpoint m srv).marksFile = some (srv.marksFile.getD [] ++ [m]) ∧
    (saveNoteEndpoint n srv).notesFile = some (srv.notesFile.getD [] ++ [n]) ∧
    (deleteMarkWithReassignment resolve lr markId s).server.marksFile
      = some (deleteMarkWithReassignment resolve lr markId s).marks ∧
    (deleteMarkWithReassignment resolve lr markId s).server.notesFile
      = some (deleteMarkWithReassignment resolve lr markId s).notes ∧
    (saveMarkName markId newName s).server.marksFile
      = some (saveMarkName markId newName s).marks ∧
    (saveNoteText markId newName s).server.notesFile
      = some (saveNoteText markId newName s).notes ∧
    (saveMarkText markId newText s).server.marksFile
      = some (saveMarkText markId newText s).marks ∧
    ((s.notes.find? (fun note => note.id == noteId)).isSome = true →
      (deleteNote noteId s).server.notesFile
        = some (deleteNote noteId s).notes) ∧
    (s.notes ≠ [] →
      (undoLastHighlight s).server.notesFile
        = some (undoLastHighlight s).notes) := by
  refine ⟨rfl, rfl, rfl, rfl, rfl, rfl, rfl, rfl, rfl, ?_, ?_⟩
  · intro h
    obtain ⟨v, hv⟩ := Option.isSome_iff_exists.mp h
    unfold deleteNote
    rw [hv]
    rfl
  · intro h
    unfold undoLastHighlight
    rw [if_pos (List.length_pos.mpr h)]
    rfl

/-- C7 amended witness: deleting the spec scenario's note and undoing its
last note each store exactly the resulting note collection. -/
theorem persistence_save_semantics_witness :
    (deleteNote "note-1" exState).server.notesFile
      = some (deleteNote "note-1" exState).notes ∧
    (undoLastHighlight exState).server.notesFile
      = some (undoLastHighlight exState).notes :=
  ⟨(persistence_save_semantics [] [] exM1 exN ⟨none, none⟩ exResolve true
      "mark-1" "name" "note-1" "text" exState).2.2.2.2.2.2.2.2.2.1 (by decide),
   (persistence_save_semantics [] [] exM1 exN ⟨none, none⟩ exResolve true
      "mark-1" "name" "note-1" "text" exState).2.2.2.2.2.2.2.2.2.2 (by decide)⟩

/-- C8: saving a marks collection through /api/update-marks and loading it
back through /api/load-marks returns exactly the saved collection, for any
collection including the empty one and whatever was stored before. -/
theorem marks_save_load_roundtrip (X : List Mark) (srv : ServerState) :
    loadMarksEndpoint (updateMarksEndpoint X srv) = X :=
  rfl

end GenreJinn

namespace GenreJinn

/-- C9: deleting an existing note removes exactly that note record — the
notes before and after it are kept unchanged and in order, and the mark
collection is untouched. -/
theorem deleteNote_removes_exactly_one
    (noteId : String) (s : AppState)
    (hmem : noteId ∈ s.notes.map Note.id)
    (hnd : (s.notes.map Note.id).Nodup) :
    (deleteNote noteId s).marks = s.marks ∧
    ∃ l₁ n l₂, s.notes = l₁ ++ n :: l₂ ∧ n.id = noteId ∧
      (deleteNote noteId s).notes = l₁ ++ l₂ := by
  obtain ⟨n, hn, hid⟩ := List.mem_map.mp hmem
  obtain ⟨l₁, l₂, hsplit⟩ := List.append_of_mem hn
  have hfind : (s.notes.find? (fun note => note.id == noteId)).isSome := by
    rw [List.find?_isSome]
    exact ⟨n, hn, by simp [hid]⟩
  obtain ⟨v, hv⟩ := Option.isSome_iff_exists.mp hfind
  have hdel : deleteNote noteId s =
      { s with notes := s.notes.filter (fun note => note.id != noteId),
               server := updateNotesEndpoint
                 (s.notes.filter (fun note => note.id != noteId)) s.server } := by
    unfold deleteNote
    rw [hv]
  have hndids : ∀ x, x ∈ l₁ ∨ x ∈ l₂ → (x.id != noteId) = true := by
    rw [hsplit, List.map_append, List.map_cons] at hnd
    obtain ⟨-, hnd2, hdisj⟩ := List.nodup_append.mp hnd
    have hn1 : n.id ∉ l₁.map Note.id :=
      fun hmem1 => hdisj hmem1 (List.mem_cons_self _ _)
    have hn2 : n.id ∉ l₂.map Note.id := (List.nodup_cons.mp hnd2).1
    intro x hx
    have hxid : x.id ≠ noteId := by
      intro hEq
      rcases hx with hx | hx
      · have hxmem : x.id ∈ l₁.map Note.id := List.mem_map_of_mem _ hx
        rw [hEq, ← hid] at hxmem
        exact hn1 hxmem
      · have hxmem : x.id ∈ l₂.map Note.id := List.mem_map_of_mem _ hx
        rw [hEq, ← hid] at hxmem
        exact hn2 hxmem
    simp [hxid]
  have h1 : l₁.filter (fun note => note.id != noteId) = l₁ :=
    List.filter_eq_self.mpr (fun x hx => hndids x (Or.inl hx))
  have h2 : l₂.filter (fun note => note.id != noteId) = l₂ :=
    List.filter_eq_self.mpr (fun x hx => hndids x (Or.inr hx))
  refine ⟨by rw [hdel], l₁, n, l₂, hsplit, hid, ?_⟩
  rw [hdel]
  show (s.notes.filter (fun note => note.id != noteId)) = l₁ ++ l₂
  rw [hsplit, List.filter_append, List.filter_cons]
  simp [h1, h2, hid]

/-- C9 witness: deleting the only note of the spec scenario keeps both
marks and leaves the note list empty. -/
theorem deleteNote_removes_exactly_one_witness :
    (deleteNote "note-1" exState).marks = exState.marks :=
  (deleteNote_removes_exactly_one "note-1" exState (by decide) (by decide)).1

/-- C10: `undoLastHighlight` never touches the marks, replaces the note
list by the list without its last element, is the identity on an empty
note list, and on a non-empty list removes exactly the most recently
appended note. -/
theorem undoLastHighlight_drops_last (s : AppState) :
    (undoLastHighlight s).marks = s.marks ∧
    (undoLastHighlight s).notes = s.notes.dropLast ∧
    (s.notes = [] → undoLastHighlight s = s) ∧
    ∀ (h : s.notes ≠ []),
      s.notes = (undoLastHighlight s).notes ++ [s.notes.getLast h] := by
  unfold undoLastHighlight
  by_cases hn : 0 < s.notes.length
  · rw [if_pos hn]
    refine ⟨rfl, rfl, ?_, ?_⟩
    · intro h
      rw [h] at hn
      exact absurd hn (by simp)
    · intro h
      exact (List.dropLast_append_getLast h).symm
  · rw [if_neg hn]
    have hnil : s.notes = [] := by
      rcases List.eq_nil_or_concat s.notes with h | ⟨l, a, h⟩
      · exact h
      · rw [h] at hn
        simp at hn
    exact ⟨rfl, by rw [hnil]; rfl, fun _ => rfl, fun h => absurd hnil h⟩

/-- C10 witness: undo on the spec scenario removes its single note and
keeps the marks. -/
theorem undoLastHighlight_drops_last_witness :
    exState.notes = (undoLastHighlight exState).notes ++ [exN] :=
  (undoLastHighlight_drops_last exState).2.2.2 (by decide)

end GenreJinn
